import Mathlib

/-!
Shallow embedding of the tw-txparser transaction parser (Go) and proofs
about its numeric codec, address store and block-scanning logic.

Strings are modelled by their character lists where convenient; Go's
`int` is modelled by `Int` (64-bit overflow is made explicit where the
standard library clamps), and Go maps with zero-value defaults are
modelled by total functions.
-/

namespace TxParser

/-! ## Hex digit machinery (mirrors Go strconv / encoding-hex digit tables) -/

/-- Character-to-digit table of Go `strconv.ParseUint`: decimal digits map to
0–9, letters (either case) map to 10–35; anything else is a syntax error. -/
def goDigitVal? (c : Char) : Option Nat :=
  if '0' ≤ c ∧ c ≤ '9' then some (c.toNat - 48)
  else if 'a' ≤ c ∧ c ≤ 'z' then some (c.toNat - 97 + 10)
  else if 'A' ≤ c ∧ c ≤ 'Z' then some (c.toNat - 65 + 10)
  else none

/-- A digit valid in base 16: the Go parse loop rejects mapped values `≥ 16`. -/
def goHexDigit? (c : Char) : Option Nat :=
  match goDigitVal? c with
  | some d => if d < 16 then some d else none
  | none => none

/-- Whether `c` is one of `0-9a-fA-F`. -/
def isGoHexDigit (c : Char) : Bool := (goHexDigit? c).isSome

/-- Value of a hex digit, defaulting to 0 for invalid characters
(used only to state specifications about valid inputs). -/
def digitVal (c : Char) : Nat := (goHexDigit? c).getD 0

/-- Most-significant-first value of a digit string, starting from `acc`. -/
def hexValFold (acc : Nat) (cs : List Char) : Nat :=
  cs.foldl (fun n c => 16 * n + digitVal c) acc

/-- Most-significant-first value of a hex digit string. -/
def hexVal (cs : List Char) : Nat := hexValFold 0 cs

/-! ## Go `strconv.ParseInt(s, 16, 64)` (used by `hexToInt`) -/

/-- Outcome of Go's `ParseUint` digit loop. -/
inductive GoParse where
  | ok (n : Nat)
  | syntaxErr
  | rangeErr
deriving DecidableEq, Repr

/-- The constant `2^64 - 1`, the `maxVal` of `ParseUint` at bit size 64. -/
def maxUint64 : Nat := 2 ^ 64 - 1

/-- The digit loop of Go `strconv.ParseUint(s, 16, 64)`: each character is
mapped through the digit table (invalid ⇒ syntax error, reported with value 0)
and accumulated; if the accumulator would exceed `2^64 - 1` the loop stops at
once with a range error (reported with value `maxVal`). -/
def parseUint16Loop : List Char → Nat → GoParse
  | [], n => .ok n
  | c :: cs, n =>
    match goHexDigit? c with
    | none => .syntaxErr
    | some d => if 16 * n + d > maxUint64 then .rangeErr else parseUint16Loop cs (16 * n + d)

/-- Go `strconv.ParseUint(s, 16, 64)`: the empty string is a syntax error. -/
def goParseUint64 (cs : List Char) : GoParse :=
  match cs with
  | [] => .syntaxErr
  | c :: rest => parseUint16Loop (c :: rest) 0

/-- The signed wrap-up of Go `strconv.ParseInt(s, 16, 64)` applied to the
`ParseUint` outcome: syntax errors yield 0 (the error is discarded by the
caller), out-of-range values are clamped to `MaxInt64` / `MinInt64`. -/
def goParseSignedResult (neg : Bool) (r : GoParse) : Int :=
  match r with
  | .syntaxErr => 0
  | .rangeErr => if neg then -(2 ^ 63) else 2 ^ 63 - 1
  | .ok un =>
    if neg = false ∧ 2 ^ 63 ≤ un then 2 ^ 63 - 1
    else if neg = true ∧ 2 ^ 63 < un then -(2 ^ 63)
    else if neg = true then -(un : Int) else (un : Int)

/-- Go `ParseInt` after the sign was stripped. -/
def goParseAfterSign (neg : Bool) (digits : List Char) : Int :=
  goParseSignedResult neg (goParseUint64 digits)

/-- Go `strconv.ParseInt(s, 16, 64)` with the error discarded: an optional
leading sign, then the base-16 digit loop. -/
def goParseInt64L (cs : List Char) : Int :=
  match cs with
  | [] => 0
  | c :: rest =>
    if c = '+' then goParseAfterSign false rest
    else if c = '-' then goParseAfterSign true rest
    else goParseAfterSign false (c :: rest)

/-- Go `strings.TrimPrefix(s, "0x")` on character lists. -/
def trimPrefix0xL : List Char → List Char
  | '0' :: 'x' :: rest => rest
  | l => l

/-- Embedding of `hexToInt` (src/pkg/parser/block.go): parse a hex string, with or without
`0x` prefix, into an int; the `ParseInt` error is discarded. -/
def hexToInt (hexStr : String) : Int := goParseInt64L (trimPrefix0xL hexStr.data)

/-! ## Go `encoding/hex.DecodeString` (used by `decodeHex`) -/

/-- Go `hex.DecodeString`: decodes consecutive digit pairs into bytes;
any invalid character or an odd length is an error. -/
def hexDecodeString : List Char → Option (List Nat)
  | [] => some []
  | a :: rest =>
    match rest with
    | [] => none
    | b :: rest2 =>
      match goHexDigit? a, goHexDigit? b, hexDecodeString rest2 with
      | some x, some y, some bs => some ((16 * x + y) :: bs)
      | _, _, _ => none

/-- The odd-length padding step of `decodeHex`: left-pad with a zero nibble. -/
def padOdd (l : List Char) : List Char :=
  if l.length % 2 = 1 then '0' :: l else l

/-- Embedding of `decodeHex` (src/pkg/parser/block.go) on character lists: strip the
prefix, reject empty input, left-pad odd-length input with `'0'`, decode,
and return the first byte (0 for an empty decoded sequence); `none` models
the error return. -/
def decodeHexL (hexStr : List Char) : Option Nat :=
  if trimPrefix0xL hexStr = [] then none
  else
    match hexDecodeString (padOdd (trimPrefix0xL hexStr)) with
    | none => none
    | some [] => some 0
    | some (x :: _) => some x

/-- Embedding of `decodeHex` on strings. -/
def decodeHex (hexStr : String) : Option Nat := decodeHexL hexStr.data

/-! ## Go `math/big.Int.SetString(s, 16)` (used by `hexToBigIntString`) -/

/-- Value of an all-valid hex digit list, failing on the first invalid
character (`big.Int` is unbounded, so there is no range check). -/
def hexValLoop : List Char → Nat → Option Nat
  | [], n => some n
  | c :: cs, n =>
    match goHexDigit? c with
    | none => none
    | some d => hexValLoop cs (16 * n + d)

/-- Behavior of `big.Int.SetString` after the sign: at least one valid base-16 digit
(either case) is required; the sign is applied to the digits' value. -/
def bigSetDigits (neg : Bool) (ds : List Char) : Option Int :=
  match ds with
  | [] => none
  | a :: rest =>
    match hexValLoop (a :: rest) 0 with
    | none => none
    | some v => some (if neg then -(v : Int) else (v : Int))

/-- Go `new(big.Int).SetString(s, 16)`: an optional sign followed by at
least one base-16 digit (either case); `none` models `ok = false`. -/
def bigSetString16 (s : List Char) : Option Int :=
  match s with
  | [] => none
  | c :: rest =>
    if c = '+' then bigSetDigits false rest
    else if c = '-' then bigSetDigits true rest
    else bigSetDigits false (c :: rest)

/-- The length cap of `hexToBigIntString`: keep only the least-significant
64 hex characters (`hi = hi[len(hi)-64:]`). -/
def trunc64 (l : List Char) : List Char :=
  if l.length > 64 then l.drop (l.length - 64) else l

/-- Embedding of `hexToBigIntString` (src/pkg/parser/block.go) on character lists: strip
the prefix; empty yields `"0"`; keep only the least-significant 64 hex
characters; parse with `big.Int.SetString` base 16, yielding `"0"` on
failure and the decimal representation on success. -/
def hexToBigIntStringL (h : List Char) : String :=
  let hi := trimPrefix0xL h
  if hi = [] then "0"
  else
    match bigSetString16 (trunc64 hi) with
    | none => "0"
    | some b => toString b

/-- Embedding of `hexToBigIntString` on strings. -/
def hexToBigIntString (h : String) : String := hexToBigIntStringL h.data

/-! ## Go `strconv.FormatInt(n, 16)` (used by `formatBlockNum`) -/

/-- Little-endian base-16 digits of `n` as lowercase characters, mirroring
Go's `formatBits` digit extraction (always at least one digit). -/
def natToHexLE (n : Nat) : List Char :=
  if h : n < 16 then [Nat.digitChar n]
  else Nat.digitChar (n % 16) :: natToHexLE (n / 16)
decreasing_by exact Nat.div_lt_self (by omega) (by omega)

/-- Go `strconv.FormatInt(n, 16)` for non-negative `n`. -/
def natHexStr (n : Nat) : String := ⟨(natToHexLE n).reverse⟩

/-- Embedding of `formatBlockNum` (src/unnamed/part_000): `"0x" + strconv.FormatInt(num, 16)`. -/
def formatBlockNum (num : Int) : String :=
  "0x" ++ (if num < 0 then "-" ++ natHexStr (-num).toNat else natHexStr num.toNat)

/-! ## Address store (src/internal/storage/memory.go, subscription-gated variant) -/

/-- Embedding of `transaction.Transaction` (src/pkg/transaction/model.go). -/
structure Transaction where
  Hash : String
  From : String
  To : String
  Value : String
  Block : Int
  Inbound : Bool
deriving DecidableEq, Repr

/-- The `MemoryStorage` state: the `subs` and `txs` Go maps, modelled as total
functions with the maps' zero-value defaults (`false`, `[]`). -/
structure MemoryStorage where
  subs : String → Bool
  txs : String → List Transaction

/-- Embedding of `NewMemoryStorage`: both maps start empty. -/
def NewMemoryStorage : MemoryStorage := ⟨fun _ => false, fun _ => []⟩

/-- Embedding of `Subscribe`: returns `false` and leaves the state alone if the address is
already present; otherwise marks it subscribed and returns `true`. -/
def Subscribe (m : MemoryStorage) (address : String) : Bool × MemoryStorage :=
  if m.subs address then (false, m)
  else (true, { m with subs := fun a => if a = address then true else m.subs a })

/-- Embedding of `AddTransaction`: appends `tx` to the address's list (creating it if
absent — the function default `[]` models the nil map entry). -/
def AddTransaction (m : MemoryStorage) (addr : String) (tx : Transaction) : MemoryStorage :=
  { m with txs := fun a => if a = addr then m.txs addr ++ [tx] else m.txs a }

/-- Embedding of `GetTransactions` (subscription-gated variant): the stored list if the
address is subscribed, the empty list otherwise. -/
def GetTransactions (m : MemoryStorage) (addr : String) : List Transaction :=
  if m.subs addr then m.txs addr else []

/-- Embedding of `IsSubscribed`. -/
def IsSubscribed (m : MemoryStorage) (addr : String) : Bool := m.subs addr

/-! ## Block processing (src/unnamed/part_000: processBlock, checkForNewBlocks) -/

/-- Embedding of `rpc.Transaction` (src/pkg/rpc/model.go). -/
structure RpcTransaction where
  Hash : String
  From : String
  To : String
  Value : String
deriving DecidableEq, Repr

/-- Embedding of `rpc.Block` (src/pkg/rpc/model.go). -/
structure Block where
  Number : String
  Transactions : List RpcTransaction
deriving DecidableEq, Repr

/-- The record stored under the sender: `Inbound = false`, value decoded by
the numeric codec (processBlock, first `AddTransaction` call). -/
def mkOutboundRecord (number : Int) (tx : RpcTransaction) : Transaction :=
  { Hash := tx.Hash, From := tx.From, To := tx.To,
    Value := hexToBigIntString tx.Value, Block := number, Inbound := false }

/-- The record stored under the receiver: `Inbound = true`
(processBlock, second `AddTransaction` call). -/
def mkInboundRecord (number : Int) (tx : RpcTransaction) : Transaction :=
  { Hash := tx.Hash, From := tx.From, To := tx.To,
    Value := hexToBigIntString tx.Value, Block := number, Inbound := true }

/-- One loop iteration of `processBlock`: file the transaction under its
sender and then under its receiver. -/
def storeTx (st : MemoryStorage) (number : Int) (tx : RpcTransaction) : MemoryStorage :=
  AddTransaction (AddTransaction st tx.From (mkOutboundRecord number tx))
    tx.To (mkInboundRecord number tx)

/-- Embedding of `processBlock`: the block fetch is modelled by its outcome `fetched`
(`none` = the RPC call returned an error). On failure the store is untouched
and the error is returned (second component `true`); on success every
transaction of the block is stored for sender and receiver. -/
def processBlock (fetched : Option Block) (number : Int) (st : MemoryStorage) :
    MemoryStorage × Bool :=
  match fetched with
  | none => (st, true)
  | some block => (block.Transactions.foldl (fun s tx => storeTx s number tx) st, false)

/-- Scanner state touched by `checkForNewBlocks`: the ledger cursor
(`p.block`) and the address store. -/
structure ScannerState where
  block : Int
  store : MemoryStorage

/-- The `for i := p.block + 1; i <= latestBlock; i++` loop body sequence:
each block is processed with its own fetch outcome; a failed block leaves
the store unchanged (the error is only logged) and the loop continues. -/
def processRange (fetch : Int → Option Block) (st : MemoryStorage) (nums : List Int) :
    MemoryStorage :=
  nums.foldl (fun s i => (processBlock (fetch i) i s).1) st

/-- The ascending list `[lo, lo+1, ..., hi]` (empty when `hi < lo`). -/
def ascRange (lo hi : Int) : List Int :=
  (List.range (hi + 1 - lo).toNat).map (fun k : Nat => lo + (k : Int))

/-- Embedding of `checkForNewBlocks`: the head-number fetch is modelled by its outcome
`headResult` (`none` = error). On error the state is untouched and the error
is returned (second component `true`). Otherwise, if the parsed head exceeds
the cursor, all blocks in `(cursor, head]` are processed in ascending order
and the cursor is set to the head; else nothing changes. -/
def checkForNewBlocks (headResult : Option String) (fetch : Int → Option Block)
    (p : ScannerState) : ScannerState × Bool :=
  match headResult with
  | none => (p, true)
  | some blockHex =>
    let latestBlock := hexToInt blockHex
    if latestBlock > p.block then
      ({ block := latestBlock,
         store := processRange fetch p.store (ascRange (p.block + 1) latestBlock) }, false)
    else (p, false)

/-! ## Constructor configuration (src/pkg/parser/parser.go) -/

/-- Embedding of `parser.Options`. -/
structure Options where
  BackwardScanEnabled : Bool
  BackwardScanDepth : Int
deriving DecidableEq, Repr

/-- The configuration fields of `parserImpl` set by `NewParserWithInterval`. -/
structure ScannerConfig where
  block : Int
  backwardScanEnabled : Bool
  backwardScanDepth : Int
deriving DecidableEq, Repr

/-- Embedding of `NewParserWithInterval` (configuration part): a non-positive depth is
replaced by 10000; `enabled` starts `true` and is set to `false` whenever
the passed flag is not `true`. -/
def NewParserWithInterval (opts : Options) : ScannerConfig :=
  let depth := if opts.BackwardScanDepth ≤ 0 then 10000 else opts.BackwardScanDepth
  let enabled := if !opts.BackwardScanEnabled then false else true
  { block := 0, backwardScanEnabled := enabled, backwardScanDepth := depth }

/-! ## Specification-side definitions -/

/-- A lowercase hex character (`0-9a-f`), for stating output-format claims. -/
def isLowerHexDigit (c : Char) : Bool :=
  ('0' ≤ c && c ≤ '9') || ('a' ≤ c && c ≤ 'f')

/-- Value of a little-endian digit list. -/
def valLE : List Char → Nat
  | [] => 0
  | c :: cs => digitVal c + 16 * valLE cs

/-- The (address, record) pairs a block's transaction list generates, in
storage order: for each transaction, first the sender's outbound record,
then the receiver's inbound record. -/
def txRecords (number : Int) (txs : List RpcTransaction) : List (String × Transaction) :=
  txs.flatMap (fun t => [(t.From, mkOutboundRecord number t), (t.To, mkInboundRecord number t)])

/-- The four operations of the `Storage` interface, for stating invariants
preserved by every operation. -/
inductive Op where
  | subscribe (a : String)
  | addTransaction (a : String) (tx : Transaction)
  | getTransactions (a : String)
  | isSubscribed (a : String)

/-- State effect of one storage operation (the two reads do not modify
the state). -/
def applyOp (m : MemoryStorage) (op : Op) : MemoryStorage :=
  match op with
  | .subscribe a => (Subscribe m a).2
  | .addTransaction a tx => AddTransaction m a tx
  | .getTransactions _ => m
  | .isSubscribed _ => m

/-! ## Helper lemmas: hex digits -/

theorem digitVal_digitChar : ∀ d : Nat, d < 16 → digitVal (Nat.digitChar d) = d := by decide

theorem isGoHexDigit_digitChar : ∀ d : Nat, d < 16 → isGoHexDigit (Nat.digitChar d) = true := by
  decide

theorem isLowerHexDigit_digitChar : ∀ d : Nat, d < 16 → isLowerHexDigit (Nat.digitChar d) = true := by
  decide

theorem digitChar_ne_plus : ∀ d : Nat, d < 16 → Nat.digitChar d ≠ '+' := by decide

theorem digitChar_ne_minus : ∀ d : Nat, d < 16 → Nat.digitChar d ≠ '-' := by decide

theorem digitChar_eq_zero_iff : ∀ d : Nat, d < 16 → (Nat.digitChar d = '0' ↔ d = 0) := by decide

theorem goHexDigit?_of_valid (c : Char) (h : isGoHexDigit c = true) :
    goHexDigit? c = some (digitVal c) := by
  unfold isGoHexDigit at h
  cases hc : goHexDigit? c with
  | none => rw [hc] at h; simp at h
  | some d => simp [digitVal, hc]

theorem goHexDigit?_of_invalid (c : Char) (h : isGoHexDigit c = false) :
    goHexDigit? c = none := by
  unfold isGoHexDigit at h
  cases hc : goHexDigit? c with
  | none => rfl
  | some d => rw [hc] at h; simp at h

/-! ## Helper lemmas: the ParseUint digit loop -/

theorem hexValFold_cons (acc : Nat) (c : Char) (cs : List Char) :
    hexValFold acc (c :: cs) = hexValFold (16 * acc + digitVal c) cs := rfl

theorem le_hexValFold : ∀ (cs : List Char) (acc : Nat), acc ≤ hexValFold acc cs := by
  intro cs
  induction cs with
  | nil => intro acc; simp [hexValFold]
  | cons c cs ih =>
    intro acc
    calc acc ≤ 16 * acc + digitVal c := by omega
    _ ≤ hexValFold (16 * acc + digitVal c) cs := ih _
    _ = hexValFold acc (c :: cs) := (hexValFold_cons acc c cs).symm

theorem parseUint16Loop_ok : ∀ (cs : List Char) (acc : Nat),
    cs.all isGoHexDigit = true → hexValFold acc cs ≤ maxUint64 →
    parseUint16Loop cs acc = .ok (hexValFold acc cs) := by
  intro cs
  induction cs with
  | nil => intro acc _ _; rfl
  | cons c cs ih =>
    intro acc hall hle
    rw [List.all_cons, Bool.and_eq_true] at hall
    obtain ⟨hc, hcs⟩ := hall
    rw [hexValFold_cons] at hle ⊢
    have hbound : 16 * acc + digitVal c ≤ maxUint64 :=
      le_trans (le_hexValFold cs _) hle
    unfold parseUint16Loop
    rw [goHexDigit?_of_valid c hc]
    simp only [if_neg (by omega : ¬ 16 * acc + digitVal c > maxUint64)]
    exact ih _ hcs hle

theorem parseUint16Loop_syntax : ∀ (pre : List Char) (c : Char) (post : List Char) (acc : Nat),
    pre.all isGoHexDigit = true → isGoHexDigit c = false →
    hexValFold acc pre ≤ maxUint64 →
    parseUint16Loop (pre ++ c :: post) acc = .syntaxErr := by
  intro pre
  induction pre with
  | nil =>
    intro c post acc _ hc _
    rw [List.nil_append]
    unfold parseUint16Loop
    rw [goHexDigit?_of_invalid c hc]
  | cons a pre ih =>
    intro c post acc hall hc hle
    rw [List.all_cons, Bool.and_eq_true] at hall
    obtain ⟨ha, hpre⟩ := hall
    rw [hexValFold_cons] at hle
    have hbound : 16 * acc + digitVal a ≤ maxUint64 :=
      le_trans (le_hexValFold pre _) hle
    show parseUint16Loop (a :: (pre ++ c :: post)) acc = .syntaxErr
    unfold parseUint16Loop
    rw [goHexDigit?_of_valid a ha]
    simp only [if_neg (by omega : ¬ 16 * acc + digitVal a > maxUint64)]
    exact ih c post _ hpre hc hle

theorem parseUint16Loop_range : ∀ (cs : List Char) (acc : Nat),
    cs.all isGoHexDigit = true → acc ≤ maxUint64 → hexValFold acc cs > maxUint64 →
    parseUint16Loop cs acc = .rangeErr := by
  intro cs
  induction cs with
  | nil =>
    intro acc _ hacc hgt
    simp [hexValFold] at hgt
    omega
  | cons c cs ih =>
    intro acc hall hacc hgt
    rw [List.all_cons, Bool.and_eq_true] at hall
    obtain ⟨hc, hcs⟩ := hall
    rw [hexValFold_cons] at hgt
    unfold parseUint16Loop
    rw [goHexDigit?_of_valid c hc]
    by_cases hover : 16 * acc + digitVal c > maxUint64
    · simp only [if_pos hover]
    · simp only [if_neg hover]
      exact ih _ hcs (by omega) hgt

/-! ## Helper lemmas: goParseInt64 on digit strings -/

theorem goParseSignedResult_ok_small (un : Nat) (h : un < 2 ^ 63) :
    goParseSignedResult false (.ok un) = (un : Int) := by
  simp only [goParseSignedResult]
  rw [if_neg (fun hh : True ∧ 2 ^ 63 ≤ un => absurd hh.2 (by omega))]
  rw [if_neg (fun hh : false = true ∧ 2 ^ 63 < un => by simp at hh)]
  rw [if_neg (by simp : ¬ false = true)]

theorem goParseSignedResult_ok_big (un : Nat) (h : 2 ^ 63 ≤ un) :
    goParseSignedResult false (.ok un) = 2 ^ 63 - 1 := by
  simp only [goParseSignedResult]
  rw [if_pos (⟨trivial, h⟩ : True ∧ 2 ^ 63 ≤ un)]

theorem goParseInt64_valid_small (cs : List Char) (hne : cs ≠ [])
    (hall : cs.all isGoHexDigit = true) (hlt : hexVal cs < 2 ^ 63) :
    goParseInt64L cs = (hexVal cs : Int) := by
  obtain ⟨c, rest, rfl⟩ := List.exists_cons_of_ne_nil hne
  have hc : isGoHexDigit c = true := by
    rw [List.all_cons, Bool.and_eq_true] at hall; exact hall.1
  have hplus : ¬ c = '+' := fun h => by rw [h] at hc; exact absurd hc (by decide)
  have hminus : ¬ c = '-' := fun h => by rw [h] at hc; exact absurd hc (by decide)
  have hmax : hexValFold 0 (c :: rest) ≤ maxUint64 := by
    unfold hexVal at hlt; unfold maxUint64; omega
  simp only [goParseInt64L]
  rw [if_neg hplus, if_neg hminus]
  unfold goParseAfterSign
  simp only [goParseUint64]
  rw [parseUint16Loop_ok _ 0 hall hmax]
  exact goParseSignedResult_ok_small _ hlt

theorem goParseInt64_valid_big (cs : List Char) (hne : cs ≠ [])
    (hall : cs.all isGoHexDigit = true) (hge : 2 ^ 63 ≤ hexVal cs) :
    goParseInt64L cs = 2 ^ 63 - 1 := by
  obtain ⟨c, rest, rfl⟩ := List.exists_cons_of_ne_nil hne
  have hc : isGoHexDigit c = true := by
    rw [List.all_cons, Bool.and_eq_true] at hall; exact hall.1
  have hplus : ¬ c = '+' := fun h => by rw [h] at hc; exact absurd hc (by decide)
  have hminus : ¬ c = '-' := fun h => by rw [h] at hc; exact absurd hc (by decide)
  simp only [goParseInt64L]
  rw [if_neg hplus, if_neg hminus]
  unfold goParseAfterSign
  simp only [goParseUint64]
  by_cases hmax : hexValFold 0 (c :: rest) ≤ maxUint64
  · rw [parseUint16Loop_ok _ 0 hall hmax]
    exact goParseSignedResult_ok_big _ hge
  · rw [parseUint16Loop_range _ 0 hall (Nat.zero_le _) (by omega)]
    rfl

theorem goParseInt64_syntax (pre : List Char) (c : Char) (post : List Char)
    (hpre : pre.all isGoHexDigit = true) (hc : isGoHexDigit c = false)
    (hsign : pre ≠ [] ∨ (c ≠ '+' ∧ c ≠ '-')) (hbound : hexVal pre ≤ maxUint64) :
    goParseInt64L (pre ++ c :: post) = 0 := by
  cases pre with
  | nil =>
    have hcs : c ≠ '+' ∧ c ≠ '-' := by
      rcases hsign with h | h
      · exact absurd rfl h
      · exact h
    rw [List.nil_append]
    simp only [goParseInt64L]
    rw [if_neg hcs.1, if_neg hcs.2]
    unfold goParseAfterSign
    simp only [goParseUint64]
    have hl := parseUint16Loop_syntax [] c post 0 rfl hc (Nat.zero_le _)
    rw [List.nil_append] at hl
    rw [hl]
    rfl
  | cons a pre' =>
    have ha : isGoHexDigit a = true := by
      rw [List.all_cons, Bool.and_eq_true] at hpre; exact hpre.1
    have hplus : ¬ a = '+' := fun h => by rw [h] at ha; exact absurd ha (by decide)
    have hminus : ¬ a = '-' := fun h => by rw [h] at ha; exact absurd ha (by decide)
    show goParseInt64L (a :: (pre' ++ c :: post)) = 0
    simp only [goParseInt64L]
    rw [if_neg hplus, if_neg hminus]
    unfold goParseAfterSign
    simp only [goParseUint64]
    have hl := parseUint16Loop_syntax (a :: pre') c post 0 hpre hc hbound
    rw [List.cons_append] at hl
    rw [hl]
    rfl

/-! ## Helper lemmas: formatBlockNum digits -/

theorem valLE_natToHexLE (n : Nat) : valLE (natToHexLE n) = n := by
  induction n using Nat.strong_induction_on with
  | _ n ih =>
    rw [natToHexLE.eq_def]
    by_cases h : n < 16
    · rw [dif_pos h]
      simp [valLE, digitVal_digitChar n h]
    · rw [dif_neg h]
      have hdiv : n / 16 < n := Nat.div_lt_self (by omega) (by omega)
      simp only [valLE, ih (n / 16) hdiv, digitVal_digitChar (n % 16) (Nat.mod_lt n (by omega))]
      omega

theorem mem_natToHexLE (n : Nat) : ∀ c ∈ natToHexLE n, ∃ d, d < 16 ∧ c = Nat.digitChar d := by
  induction n using Nat.strong_induction_on with
  | _ n ih =>
    rw [natToHexLE.eq_def]
    by_cases h : n < 16
    · rw [dif_pos h]
      intro c hc
      rw [List.mem_singleton] at hc
      exact ⟨n, h, hc⟩
    · rw [dif_neg h]
      intro c hc
      rw [List.mem_cons] at hc
      rcases hc with hc | hc
      · exact ⟨n % 16, Nat.mod_lt n (by omega), hc⟩
      · exact ih (n / 16) (Nat.div_lt_self (by omega) (by omega)) c hc

theorem natToHexLE_ne_nil (n : Nat) : natToHexLE n ≠ [] := by
  rw [natToHexLE.eq_def]
  by_cases h : n < 16
  · rw [dif_pos h]; simp
  · rw [dif_neg h]; simp

theorem natToHexLE_getLast (n : Nat) (hn : n ≠ 0) :
    ∀ c, (natToHexLE n).getLast? = some c → c ≠ '0' := by
  induction n using Nat.strong_induction_on with
  | _ n ih =>
    rw [natToHexLE.eq_def]
    by_cases h : n < 16
    · rw [dif_pos h]
      intro c hc
      simp only [List.getLast?_singleton, Option.some.injEq] at hc
      subst hc
      intro hzero
      exact hn ((digitChar_eq_zero_iff n h).mp hzero)
    · rw [dif_neg h]
      intro c hc
      obtain ⟨a, l, hl⟩ := List.exists_cons_of_ne_nil (natToHexLE_ne_nil (n / 16))
      rw [hl, List.getLast?_cons_cons] at hc
      rw [← hl] at hc
      exact ih (n / 16) (Nat.div_lt_self (by omega) (by omega)) (by omega) c hc

theorem hexValFold_append (acc : Nat) (l₁ l₂ : List Char) :
    hexValFold acc (l₁ ++ l₂) = hexValFold (hexValFold acc l₁) l₂ := by
  unfold hexValFold
  rw [List.foldl_append]

theorem hexValFold_reverse (l : List Char) (acc : Nat) :
    hexValFold acc l.reverse = acc * 16 ^ l.length + valLE l := by
  induction l generalizing acc with
  | nil => simp [hexValFold, valLE]
  | cons c cs ih =>
    rw [List.reverse_cons, hexValFold_append, ih]
    show 16 * (acc * 16 ^ cs.length + valLE cs) + digitVal c =
      acc * 16 ^ (c :: cs).length + valLE (c :: cs)
    simp only [valLE, List.length_cons]
    ring

theorem hexVal_reverse_natToHexLE (n : Nat) :
    hexVal (natToHexLE n).reverse = n := by
  unfold hexVal
  rw [hexValFold_reverse, valLE_natToHexLE]
  simp

theorem all_isGoHexDigit_natToHexLE (n : Nat) :
    ((natToHexLE n).reverse).all isGoHexDigit = true := by
  rw [List.all_eq_true]
  intro c hc
  rw [List.mem_reverse] at hc
  obtain ⟨d, hd, rfl⟩ := mem_natToHexLE n c hc
  exact isGoHexDigit_digitChar d hd

/-! ## Helper lemmas: big.Int SetString -/

theorem hexValLoop_valid : ∀ (cs : List Char) (acc : Nat),
    cs.all isGoHexDigit = true → hexValLoop cs acc = some (hexValFold acc cs) := by
  intro cs
  induction cs with
  | nil => intro acc _; rfl
  | cons c cs ih =>
    intro acc hall
    rw [List.all_cons, Bool.and_eq_true] at hall
    unfold hexValLoop
    rw [goHexDigit?_of_valid c hall.1]
    exact ih _ hall.2

theorem bigSetString16_all_hex (cs : List Char) (hne : cs ≠ [])
    (hall : cs.all isGoHexDigit = true) :
    bigSetString16 cs = some ((hexVal cs : Nat) : Int) := by
  obtain ⟨c, rest, rfl⟩ := List.exists_cons_of_ne_nil hne
  have hc : isGoHexDigit c = true := by
    rw [List.all_cons, Bool.and_eq_true] at hall; exact hall.1
  have hplus : ¬ c = '+' := fun h => by rw [h] at hc; exact absurd hc (by decide)
  have hminus : ¬ c = '-' := fun h => by rw [h] at hc; exact absurd hc (by decide)
  simp only [bigSetString16]
  rw [if_neg hplus, if_neg hminus]
  simp only [bigSetDigits]
  rw [hexValLoop_valid _ 0 hall]
  simp [hexVal]

/-! ## Helper lemmas: hex.DecodeString -/

theorem hexDecodeString_none_of_invalid : ∀ (l : List Char),
    (∃ c ∈ l, isGoHexDigit c = false) → hexDecodeString l = none := by
  intro l
  induction l using hexDecodeString.induct with
  | case1 => intro h; simp at h
  | case2 b => intro _; rfl
  | case3 b b1 rest2 x y bs hrec hb1 hb ih =>
    intro h
    exfalso
    obtain ⟨c, hc, hcbad⟩ := h
    rw [List.mem_cons, List.mem_cons] at hc
    rcases hc with h1 | h2 | hc
    · rw [h1] at hcbad
      rw [goHexDigit?_of_invalid b hcbad] at hb
      simp at hb
    · rw [h2] at hcbad
      rw [goHexDigit?_of_invalid b1 hcbad] at hb1
      simp at hb1
    · rw [ih ⟨c, hc, hcbad⟩] at hrec
      simp at hrec
  | case4 b b1 rest2 hfail ih =>
    intro _
    show hexDecodeString (b :: b1 :: rest2) = none
    simp only [hexDecodeString]

theorem hexDecodeString_valid_even : ∀ (l : List Char),
    l.all isGoHexDigit = true → l.length % 2 = 0 →
    ∃ bs, hexDecodeString l = some bs ∧
      (∀ a b rest, l = a :: b :: rest → ∃ bs2, bs = (16 * digitVal a + digitVal b) :: bs2) := by
  intro l
  induction l using hexDecodeString.induct with
  | case1 =>
    intro _ _
    exact ⟨[], rfl, fun a b rest h => List.noConfusion h⟩
  | case2 b => intro _ h; simp at h
  | case3 b b1 rest2 x y bs hrec hb1 hb ih =>
    intro hall heven
    refine ⟨(16 * x + y) :: bs, ?_, ?_⟩
    · simp only [hexDecodeString, hb, hb1, hrec]
    · intro a c rest h
      injection h with h1 h2
      injection h2 with h2 h3
      subst h1; subst h2
      refine ⟨bs, ?_⟩
      simp [digitVal, hb, hb1]
  | case4 b b1 rest2 hfail ih =>
    intro hall heven
    exfalso
    rw [List.all_cons, List.all_cons, Bool.and_eq_true, Bool.and_eq_true] at hall
    obtain ⟨hb, hb1, hrest⟩ := hall
    have heven2 : rest2.length % 2 = 0 := by
      simp only [List.length_cons] at heven; omega
    obtain ⟨bs, hbs, _⟩ := ih hrest heven2
    exact hfail (digitVal b) (digitVal b1) bs
      (goHexDigit?_of_valid b hb) (goHexDigit?_of_valid b1 hb1) hbs

/-! ## Helper lemmas: the address store -/

theorem AddTransaction_txs (m : MemoryStorage) (addr : String) (tx : Transaction) (a : String) :
    (AddTransaction m addr tx).txs a = if a = addr then m.txs a ++ [tx] else m.txs a := by
  by_cases h : a = addr <;> simp [AddTransaction, h]

theorem AddTransaction_subs (m : MemoryStorage) (addr : String) (tx : Transaction) :
    (AddTransaction m addr tx).subs = m.subs := rfl

theorem storeTx_subs (st : MemoryStorage) (n : Int) (t : RpcTransaction) :
    (storeTx st n t).subs = st.subs := rfl

theorem storeTx_txs (st : MemoryStorage) (n : Int) (t : RpcTransaction) (a : String) :
    (storeTx st n t).txs a = st.txs a ++
      (([(t.From, mkOutboundRecord n t), (t.To, mkInboundRecord n t)].filter
        (fun p => p.1 == a)).map Prod.snd) := by
  by_cases haF : a = t.From <;> by_cases haT : a = t.To
  · simp [storeTx, AddTransaction_txs, haF.symm, haT.symm]
  · simp [storeTx, AddTransaction_txs, haF.symm, haT, Ne.symm haT]
  · simp [storeTx, AddTransaction_txs, haF, Ne.symm haF, haT.symm]
  · simp [storeTx, AddTransaction_txs, haF, Ne.symm haF, haT, Ne.symm haT]

theorem foldl_storeTx_subs (n : Int) : ∀ (txs : List RpcTransaction) (st : MemoryStorage),
    (txs.foldl (fun s tx => storeTx s n tx) st).subs = st.subs := by
  intro txs
  induction txs with
  | nil => intro st; rfl
  | cons t ts ih => intro st; rw [List.foldl_cons, ih, storeTx_subs]

theorem foldl_storeTx_txs (n : Int) : ∀ (txs : List RpcTransaction) (st : MemoryStorage) (a : String),
    (txs.foldl (fun s tx => storeTx s n tx) st).txs a =
      st.txs a ++ ((txRecords n txs).filter (fun p => p.1 == a)).map Prod.snd := by
  intro txs
  induction txs with
  | nil => intro st a; simp [txRecords]
  | cons t ts ih =>
    intro st a
    rw [List.foldl_cons, ih, storeTx_txs, List.append_assoc]
    congr 1
    rw [show txRecords n (t :: ts) =
      [(t.From, mkOutboundRecord n t), (t.To, mkInboundRecord n t)] ++ txRecords n ts from by
        simp [txRecords]]
    rw [List.filter_append, List.map_append]

theorem txRecords_length (n : Int) : ∀ (txs : List RpcTransaction),
    (txRecords n txs).length = 2 * txs.length := by
  intro txs
  induction txs with
  | nil => rfl
  | cons t ts ih => simp [txRecords] at ih ⊢; omega

/-! ## Helper lemmas: forward-poll ranges -/

theorem mem_ascRange (lo hi i : Int) : i ∈ ascRange lo hi ↔ lo ≤ i ∧ i ≤ hi := by
  unfold ascRange
  constructor
  · intro h
    obtain ⟨k, hk, hf⟩ := List.mem_map.mp h
    rw [List.mem_range] at hk
    subst hf
    omega
  · intro h
    exact List.mem_map.mpr ⟨(i - lo).toNat, List.mem_range.mpr (by omega), by omega⟩

theorem pairwise_ascRange (lo hi : Int) : List.Pairwise (· < ·) (ascRange lo hi) := by
  unfold ascRange
  exact (List.pairwise_lt_range _).map _ (fun a b h => by omega)

theorem processRange_append (fetch : Int → Option Block) (st : MemoryStorage)
    (l₁ l₂ : List Int) :
    processRange fetch st (l₁ ++ l₂) = processRange fetch (processRange fetch st l₁) l₂ := by
  simp [processRange, List.foldl_append]

theorem processRange_failed (fetch : Int → Option Block) (st : MemoryStorage)
    (i : Int) (rest : List Int) (hf : fetch i = none) :
    processRange fetch st (i :: rest) = processRange fetch st rest := by
  simp [processRange, processBlock, hf]

/-! ## Helper lemmas: bridges -/

theorem toString_intOfNat (n : Nat) : toString ((n : Int)) = Nat.repr n := rfl

theorem trunc64_all (l : List Char) (p : Char → Bool) (h : l.all p = true) :
    (trunc64 l).all p = true := by
  rw [List.all_eq_true] at h ⊢
  intro c hc
  unfold trunc64 at hc
  by_cases hl : l.length > 64
  · rw [if_pos hl] at hc
    exact h c (List.mem_of_mem_drop hc)
  · rw [if_neg hl] at hc
    exact h c hc

theorem trunc64_ne_nil (l : List Char) (h : l ≠ []) : trunc64 l ≠ [] := by
  unfold trunc64
  by_cases hl : l.length > 64
  · rw [if_pos hl]
    intro hcon
    have := congrArg List.length hcon
    simp [List.length_drop] at this
    omega
  · rw [if_neg hl]
    exact h

theorem mem_padOdd (l : List Char) (c : Char) (h : c ∈ l) : c ∈ padOdd l := by
  unfold padOdd
  by_cases hl : l.length % 2 = 1
  · rw [if_pos hl]
    exact List.mem_cons_of_mem _ h
  · rw [if_neg hl]
    exact h

theorem data_append_0x (s : String) : ("0x" ++ s).data = '0' :: 'x' :: s.data := rfl

/-! ## Helper lemmas: store operations -/

theorem applyOp_subs_mono (m : MemoryStorage) (op : Op) :
    ∀ a, m.subs a = true → (applyOp m op).subs a = true := by
  intro a h
  cases op with
  | subscribe b =>
    by_cases hb : m.subs b
    · simp [applyOp, Subscribe, hb, h]
    · show (Subscribe m b).2.subs a = true
      simp only [Subscribe, if_neg hb]
      by_cases hab : a = b <;> simp [hab, h]
  | addTransaction b tx => exact h
  | getTransactions b => exact h
  | isSubscribed b => exact h

theorem applyOp_txs_grow (m : MemoryStorage) (op : Op) :
    ∀ a, ∃ l, (applyOp m op).txs a = m.txs a ++ l := by
  intro a
  cases op with
  | subscribe b =>
    refine ⟨[], ?_⟩
    by_cases hb : m.subs b <;> simp [applyOp, Subscribe, hb]
  | addTransaction b tx =>
    by_cases hab : a = b
    · exact ⟨[tx], by simp [applyOp, AddTransaction_txs, hab]⟩
    · exact ⟨[], by simp [applyOp, AddTransaction_txs, hab]⟩
  | getTransactions b => exact ⟨[], by simp [applyOp]⟩
  | isSubscribed b => exact ⟨[], by simp [applyOp]⟩

theorem foldl_applyOp_subs_mono (m : MemoryStorage) :
    ∀ (ops : List Op) (a : String), m.subs a = true → (ops.foldl applyOp m).subs a = true := by
  intro ops
  induction ops generalizing m with
  | nil => intro a h; exact h
  | cons op ops ih =>
    intro a h
    rw [List.foldl_cons]
    exact ih (applyOp m op) a (applyOp_subs_mono m op a h)

theorem foldl_applyOp_txs_grow (m : MemoryStorage) :
    ∀ (ops : List Op) (a : String), ∃ l, (ops.foldl applyOp m).txs a = m.txs a ++ l := by
  intro ops
  induction ops generalizing m with
  | nil => intro a; exact ⟨[], by simp⟩
  | cons op ops ih =>
    intro a
    obtain ⟨l1, h1⟩ := applyOp_txs_grow m op a
    obtain ⟨l2, h2⟩ := ih (applyOp m op) a
    exact ⟨l1 ++ l2, by rw [List.foldl_cons, h2, h1, List.append_assoc]⟩

/-! ## Claim theorems -/

/-- C4 (counterexample): the claim states that every input that is not a
valid unsigned hexadecimal numeral after prefix stripping yields `"0"`, but
`hexToBigIntString "-f"` yields `"-15"`: the big-integer parser accepts a
leading sign. Moreover an input with an invalid character outside its
least-significant 64 hex digits is not mapped to `"0"` either, because
truncation happens before validation. -/
theorem C4_hexToBigIntString_counterexample :
    hexToBigIntString "-f" = "-15" ∧ "-15" ≠ "0" ∧
    hexToBigIntString
      "0xz1111111111111111111111111111111111111111111111111111111111111111" ≠ "0" := by
  decide

/-- C4 (amended): for valid unsigned hexadecimal input (with or without the
prefix), the result is the decimal expansion of the least-significant 64 hex
digits; empty input yields `"0"`; otherwise the input is truncated to its
least-significant 64 characters first and then parsed as an optionally
signed base-16 numeral, yielding its decimal string on success and `"0"` on
failure. The function is total, so it never fails. -/
theorem C4_hexToBigIntString_amended (h : String) :
    (trimPrefix0xL h.data = [] → hexToBigIntString h = "0") ∧
    (trimPrefix0xL h.data ≠ [] → (trimPrefix0xL h.data).all isGoHexDigit = true →
      hexToBigIntString h = Nat.repr (hexVal (trunc64 (trimPrefix0xL h.data)))) ∧
    (trimPrefix0xL h.data ≠ [] → bigSetString16 (trunc64 (trimPrefix0xL h.data)) = none →
      hexToBigIntString h = "0") ∧
    (∀ v, trimPrefix0xL h.data ≠ [] →
      bigSetString16 (trunc64 (trimPrefix0xL h.data)) = some v →
      hexToBigIntString h = toString v) := by
  refine ⟨?_, ?_, ?_, ?_⟩
  · intro ht
    simp [hexToBigIntString, hexToBigIntStringL, ht]
  · intro hne hall
    have hta : (trunc64 (trimPrefix0xL h.data)).all isGoHexDigit = true :=
      trunc64_all _ _ hall
    have htne : trunc64 (trimPrefix0xL h.data) ≠ [] := trunc64_ne_nil _ hne
    have hbig := bigSetString16_all_hex _ htne hta
    simp only [hexToBigIntString, hexToBigIntStringL]
    rw [if_neg hne, hbig]
    exact toString_intOfNat _
  · intro hne hnone
    simp only [hexToBigIntString, hexToBigIntStringL]
    rw [if_neg hne, hnone]
  · intro v hne hsome
    simp only [hexToBigIntString, hexToBigIntStringL]
    rw [if_neg hne, hsome]

/-- C4 (witness): the amended statement evaluated on `"0x0001a"`, whose
stripped form is valid unsigned hex, yields the decimal `"26"`. -/
theorem C4_hexToBigIntString_witness : hexToBigIntString "0x0001a" = "26" :=
  ((C4_hexToBigIntString_amended "0x0001a").2.1 (by decide) (by decide)).trans (by decide)

/-- C5 (counterexample): `"0x10000000000000000"` (value `2^64`) is a valid
hexadecimal string, yet `hexToInt` neither parses it to its value nor
returns the malformed-input sentinel 0: `strconv.ParseInt` clamps
out-of-range values to `MaxInt64`. -/
theorem C5_hexToInt_counterexample :
    hexToInt "0x10000000000000000" = 9223372036854775807 ∧
    (9223372036854775807 : Int) ≠ 18446744073709551616 ∧
    (9223372036854775807 : Int) ≠ 0 := by
  decide

/-- C5 (amended): `hexToInt` strips an optional `0x` prefix and parses the
remainder in base 16 without ever failing: empty input yields 0; a valid
unsigned digit string below `2^63` yields its value; a valid digit string at
or above `2^63` is clamped to `MaxInt64`; and input with an invalid
character (not the leading sign position) yields 0 provided the digits
before the invalid character have not already overflowed 64 bits. -/
theorem C5_hexToInt_amended (s : String) :
    (trimPrefix0xL s.data = [] → hexToInt s = 0) ∧
    (trimPrefix0xL s.data ≠ [] → (trimPrefix0xL s.data).all isGoHexDigit = true →
      hexVal (trimPrefix0xL s.data) < 2 ^ 63 →
      hexToInt s = (hexVal (trimPrefix0xL s.data) : Int)) ∧
    (trimPrefix0xL s.data ≠ [] → (trimPrefix0xL s.data).all isGoHexDigit = true →
      2 ^ 63 ≤ hexVal (trimPrefix0xL s.data) → hexToInt s = 2 ^ 63 - 1) ∧
    (∀ pre c post, trimPrefix0xL s.data = pre ++ c :: post →
      pre.all isGoHexDigit = true → isGoHexDigit c = false →
      (pre ≠ [] ∨ (c ≠ '+' ∧ c ≠ '-')) → hexVal pre ≤ maxUint64 →
      hexToInt s = 0) := by
  refine ⟨?_, ?_, ?_, ?_⟩
  · intro ht
    show goParseInt64L (trimPrefix0xL s.data) = 0
    rw [ht]
    rfl
  · intro hne hall hlt
    exact goParseInt64_valid_small _ hne hall hlt
  · intro hne hall hge
    exact goParseInt64_valid_big _ hne hall hge
  · intro pre c post heq hallpre hc hsign hbound
    show goParseInt64L (trimPrefix0xL s.data) = 0
    rw [heq]
    exact goParseInt64_syntax pre c post hallpre hc hsign hbound

/-- C5 (witness): the amended statement evaluated on `"0x1a"` yields 26. -/
theorem C5_hexToInt_witness : hexToInt "0x1a" = 26 :=
  ((C5_hexToInt_amended "0x1a").2.1 (by decide) (by decide) (by decide)).trans (by decide)

/-- C6: for `0 ≤ n < 2^63` (the values a non-negative Go `int` can hold),
`formatBlockNum n` is `"0x"` followed by a nonempty all-lowercase-hex digit
string with no leading zero (unless `n = 0`, which encodes as `"0x0"`), and
`hexToInt` parses it back to `n`. -/
theorem C6_formatBlockNum_roundtrip (n : Int) (h0 : 0 ≤ n) (h1 : n < 2 ^ 63) :
    ((formatBlockNum n).data = '0' :: 'x' :: (natToHexLE n.toNat).reverse ∧
      (natToHexLE n.toNat).reverse ≠ [] ∧
      ((natToHexLE n.toNat).reverse).all isLowerHexDigit = true ∧
      (((natToHexLE n.toNat).reverse).head? = some '0' → n = 0)) ∧
    hexToInt (formatBlockNum n) = n ∧
    (n = 0 → formatBlockNum n = "0x0") := by
  have hdata : (formatBlockNum n).data = '0' :: 'x' :: (natToHexLE n.toNat).reverse := by
    unfold formatBlockNum natHexStr
    rw [if_neg (by omega : ¬ n < 0)]
    exact data_append_0x _
  have hne : (natToHexLE n.toNat).reverse ≠ [] := by
    intro hcon
    rw [List.reverse_eq_nil_iff] at hcon
    exact natToHexLE_ne_nil n.toNat hcon
  have hlower : ((natToHexLE n.toNat).reverse).all isLowerHexDigit = true := by
    rw [List.all_eq_true]
    intro c hc
    rw [List.mem_reverse] at hc
    obtain ⟨d, hd, rfl⟩ := mem_natToHexLE n.toNat c hc
    exact isLowerHexDigit_digitChar d hd
  refine ⟨⟨hdata, hne, hlower, ?_⟩, ?_, ?_⟩
  · intro hhead
    by_contra hn0
    have hm0 : n.toNat ≠ 0 := by omega
    have hlast : (natToHexLE n.toNat).getLast? = some '0' := by
      rw [← List.head?_reverse]
      exact hhead
    exact natToHexLE_getLast n.toNat hm0 '0' hlast rfl
  · show goParseInt64L (trimPrefix0xL (formatBlockNum n).data) = n
    rw [hdata]
    show goParseInt64L ((natToHexLE n.toNat).reverse) = n
    have hv : hexVal ((natToHexLE n.toNat).reverse) = n.toNat := hexVal_reverse_natToHexLE n.toNat
    rw [goParseInt64_valid_small _ hne (all_isGoHexDigit_natToHexLE n.toNat) (by omega), hv]
    omega
  · intro hn
    subst hn
    unfold formatBlockNum natHexStr
    rw [if_neg (by omega : ¬ (0 : Int) < 0)]
    rw [show natToHexLE (0 : Int).toNat = ['0'] from by rw [natToHexLE.eq_def]; decide]
    rfl

/-- C6 (witness): the roundtrip evaluated at `n = 255`. -/
theorem C6_formatBlockNum_witness : hexToInt (formatBlockNum 255) = 255 :=
  (C6_formatBlockNum_roundtrip 255 (by norm_num) (by norm_num)).2.1

/-- C9: `decodeHex` strips the prefix and errors on empty remaining input;
any non-hex character in the remaining input is an error; otherwise the
odd-length input is left-padded with a zero nibble, so the first decoded
byte is the leading digit's value for odd input and the value of the first
two digits for even input. (The `some 0` branch for an empty decoded byte
sequence is visible in `decodeHexL`; it is unreachable because the padded
input of a nonempty trimmed string is nonempty.) -/
theorem C9_decodeHex_spec (s : String) :
    (trimPrefix0xL s.data = [] → decodeHex s = none) ∧
    ((∃ c ∈ trimPrefix0xL s.data, isGoHexDigit c = false) → decodeHex s = none) ∧
    (∀ a rest, trimPrefix0xL s.data = a :: rest →
      (a :: rest).all isGoHexDigit = true →
      (((a :: rest).length % 2 = 1 → decodeHex s = some (digitVal a)) ∧
       (∀ b rest2, rest = b :: rest2 → (a :: rest).length % 2 = 0 →
         decodeHex s = some (16 * digitVal a + digitVal b)))) := by
  refine ⟨?_, ?_, ?_⟩
  · intro ht
    show decodeHexL s.data = none
    simp only [decodeHexL]
    rw [if_pos ht]
  · intro hex
    have ht : trimPrefix0xL s.data ≠ [] := by
      obtain ⟨c, hc, _⟩ := hex
      intro h0
      rw [h0] at hc
      simp at hc
    show decodeHexL s.data = none
    simp only [decodeHexL]
    rw [if_neg ht]
    obtain ⟨c, hc, hbad⟩ := hex
    rw [hexDecodeString_none_of_invalid _ ⟨c, mem_padOdd _ c hc, hbad⟩]
  · intro a rest heq hall
    constructor
    · intro hodd
      show decodeHexL s.data = some (digitVal a)
      simp only [decodeHexL]
      rw [if_neg (by rw [heq]; simp)]
      rw [heq]
      rw [show padOdd (a :: rest) = '0' :: a :: rest from by unfold padOdd; rw [if_pos hodd]]
      obtain ⟨bs, hbs, hhead⟩ := hexDecodeString_valid_even ('0' :: a :: rest)
        (by rw [List.all_cons, Bool.and_eq_true]; exact ⟨by decide, hall⟩)
        (by simp only [List.length_cons] at hodd ⊢; omega)
      rw [hbs]
      obtain ⟨bs2, rfl⟩ := hhead '0' a rest rfl
      have h0 : digitVal '0' = 0 := by decide
      rw [h0]
      norm_num
    · intro b rest2 hrest heven
      subst hrest
      show decodeHexL s.data = some (16 * digitVal a + digitVal b)
      simp only [decodeHexL]
      rw [if_neg (by rw [heq]; simp)]
      rw [heq]
      rw [show padOdd (a :: b :: rest2) = a :: b :: rest2 from by
        unfold padOdd; rw [if_neg (by omega)]]
      obtain ⟨bs, hbs, hhead⟩ := hexDecodeString_valid_even (a :: b :: rest2) hall heven
      rw [hbs]
      obtain ⟨bs2, rfl⟩ := hhead a b rest2 rfl
      rfl

/-- C9 (witness): the even-length clause evaluated on `"0xff"` yields byte
value 255. -/
theorem C9_decodeHex_witness : decodeHex "0xff" = some 255 :=
  (((C9_decodeHex_spec "0xff").2.2 'f' ['f'] (by decide) (by decide)).2
    'f' [] (by decide) (by decide)).trans (by decide)

/-- C1: when the block fetch fails, `processBlock` reports the error and
leaves the store untouched. When it succeeds, each address's list is
extended exactly by the records the block's transactions generate for that
address, in order; the generated pairs file each transaction exactly twice,
once under `From` with `Inbound = false` and once under `To` with
`Inbound = true`, sharing hash and block number and carrying the numeric
codec's decimal conversion of the wire value; the subscription set is
untouched. -/
theorem C1_processBlock_writes (b : Block) (n : Int) (st : MemoryStorage) :
    processBlock none n st = (st, true) ∧
    (processBlock (some b) n st).2 = false ∧
    (∀ a, (processBlock (some b) n st).1.txs a =
      st.txs a ++ ((txRecords n b.Transactions).filter (fun p => p.1 == a)).map Prod.snd) ∧
    (processBlock (some b) n st).1.subs = st.subs ∧
    (txRecords n b.Transactions).length = 2 * b.Transactions.length ∧
    (∀ t, txRecords n [t] =
      [(t.From, ⟨t.Hash, t.From, t.To, hexToBigIntString t.Value, n, false⟩),
       (t.To, ⟨t.Hash, t.From, t.To, hexToBigIntString t.Value, n, true⟩)]) := by
  refine ⟨rfl, rfl, ?_, ?_, txRecords_length n b.Transactions, fun t => rfl⟩
  · intro a
    exact foldl_storeTx_txs n b.Transactions st a
  · exact foldl_storeTx_subs n b.Transactions st

/-- C1 (witness): a one-transaction block appends the outbound record under
the sender and the inbound record under the receiver. -/
theorem C1_processBlock_witness :
    (processBlock (some ⟨"0x1", [⟨"h1", "A", "B", "0x1000"⟩]⟩) 7 NewMemoryStorage).1.txs "A" =
      [⟨"h1", "A", "B", "4096", 7, false⟩] ∧
    (processBlock (some ⟨"0x1", [⟨"h1", "A", "B", "0x1000"⟩]⟩) 7 NewMemoryStorage).1.txs "B" =
      [⟨"h1", "A", "B", "4096", 7, true⟩] := by
  constructor
  · exact ((C1_processBlock_writes ⟨"0x1", [⟨"h1", "A", "B", "0x1000"⟩]⟩ 7
      NewMemoryStorage).2.2.1 "A").trans (by decide)
  · exact ((C1_processBlock_writes ⟨"0x1", [⟨"h1", "A", "B", "0x1000"⟩]⟩ 7
      NewMemoryStorage).2.2.1 "B").trans (by decide)

/-- C2: `GetTransactions` returns the stored list exactly when the address
is subscribed and the empty list otherwise; in particular it is empty after
`AddTransaction` for an unsubscribed address, and returns the full
accumulated list immediately after `Subscribe`. -/
theorem C2_getTransactions_gated (m : MemoryStorage) (a : String) (tx : Transaction) :
    (m.subs a = false → GetTransactions m a = []) ∧
    (m.subs a = true → GetTransactions m a = m.txs a) ∧
    (m.subs a = false → GetTransactions (AddTransaction m a tx) a = []) ∧
    (GetTransactions (Subscribe m a).2 a = m.txs a) := by
  refine ⟨?_, ?_, ?_, ?_⟩
  · intro h
    simp [GetTransactions, h]
  · intro h
    simp [GetTransactions, h]
  · intro h
    simp [GetTransactions, AddTransaction, h]
  · by_cases h : m.subs a
    · simp [Subscribe, GetTransactions, h]
    · simp [Subscribe, GetTransactions, h]

/-- C2 (witness): records stored before subscription are invisible, and
become fully visible right after subscribing. -/
theorem C2_getTransactions_witness :
    GetTransactions (AddTransaction NewMemoryStorage "A" ⟨"h", "A", "B", "1", 1, false⟩) "A"
      = [] ∧
    GetTransactions (Subscribe
      (AddTransaction NewMemoryStorage "A" ⟨"h", "A", "B", "1", 1, false⟩) "A").2 "A"
      = [⟨"h", "A", "B", "1", 1, false⟩] := by
  constructor
  · exact (C2_getTransactions_gated NewMemoryStorage "A"
      ⟨"h", "A", "B", "1", 1, false⟩).2.2.1 (by decide)
  · exact ((C2_getTransactions_gated
      (AddTransaction NewMemoryStorage "A" ⟨"h", "A", "B", "1", 1, false⟩) "A"
      ⟨"h", "A", "B", "1", 1, false⟩).2.2.2).trans (by decide)

/-- C3: one forward-poll tick never decrements the cursor; a failed
head-number fetch returns the error with the state untouched; a head above
the cursor makes the tick process exactly the blocks in `(cursor, head]` in
strictly ascending order (the `ascRange` list is strictly sorted and
contains exactly that interval) and then set the cursor to the head, even
when individual block fetches fail — a failed block contributes nothing to
the store and the loop continues; a head at or below the cursor changes
nothing. -/
theorem C3_forward_poll_cursor (headResult : Option String) (fetch : Int → Option Block)
    (p : ScannerState) :
    p.block ≤ (checkForNewBlocks headResult fetch p).1.block ∧
    (headResult = none → checkForNewBlocks headResult fetch p = (p, true)) ∧
    (∀ h, headResult = some h → hexToInt h > p.block →
      (checkForNewBlocks headResult fetch p).1.block = hexToInt h ∧
      (checkForNewBlocks headResult fetch p).1.store =
        processRange fetch p.store (ascRange (p.block + 1) (hexToInt h)) ∧
      (checkForNewBlocks headResult fetch p).2 = false) ∧
    (∀ h, headResult = some h → hexToInt h ≤ p.block →
      checkForNewBlocks headResult fetch p = (p, false)) ∧
    (∀ lo hi, List.Pairwise (· < ·) (ascRange lo hi) ∧
      (∀ i, i ∈ ascRange lo hi ↔ lo ≤ i ∧ i ≤ hi)) ∧
    (∀ st l₁ i l₂, fetch i = none →
      processRange fetch st (l₁ ++ i :: l₂) =
        processRange fetch (processRange fetch st l₁) l₂) := by
  refine ⟨?_, ?_, ?_, ?_, ?_, ?_⟩
  · cases headResult with
    | none => exact le_refl p.block
    | some h =>
      simp only [checkForNewBlocks]
      by_cases hgt : hexToInt h > p.block
      · rw [if_pos hgt]
        simp only []
        omega
      · rw [if_neg hgt]
  · intro hnone
    subst hnone
    rfl
  · intro h hh hgt
    subst hh
    simp only [checkForNewBlocks]
    rw [if_pos hgt]
    exact ⟨rfl, rfl, rfl⟩
  · intro h hh hle
    subst hh
    simp only [checkForNewBlocks]
    rw [if_neg (by omega)]
  · intro lo hi
    exact ⟨pairwise_ascRange lo hi, fun i => mem_ascRange lo hi i⟩
  · intro st l₁ i l₂ hf
    rw [processRange_append, processRange_failed _ _ _ _ hf]

/-- C3 (witness): a failed head fetch leaves the scanner state unchanged
and reports the error. -/
theorem C3_forward_poll_witness :
    checkForNewBlocks none (fun _ => none) ⟨5, NewMemoryStorage⟩ =
      (⟨5, NewMemoryStorage⟩, true) :=
  (C3_forward_poll_cursor none (fun _ => none) ⟨5, NewMemoryStorage⟩).2.1 rfl

/-- C7: `Subscribe` returns `true` exactly for the first call: when the
address is absent it returns `true`, marks the address subscribed, and
changes nothing else; when the address is present it returns `false` and
leaves the whole store unchanged; and a repeated `Subscribe` of the same
address always returns `false`. -/
theorem C7_subscribe_once (m : MemoryStorage) (a : String) :
    (m.subs a = false →
      (Subscribe m a).1 = true ∧ (Subscribe m a).2.subs a = true ∧
      (Subscribe m a).2.txs = m.txs ∧
      ∀ b, b ≠ a → (Subscribe m a).2.subs b = m.subs b) ∧
    (m.subs a = true → (Subscribe m a).1 = false ∧ (Subscribe m a).2 = m) ∧
    (Subscribe (Subscribe m a).2 a).1 = false := by
  refine ⟨?_, ?_, ?_⟩
  · intro h
    refine ⟨by simp [Subscribe, h], by simp [Subscribe, h], by simp [Subscribe, h], ?_⟩
    intro b hb
    simp [Subscribe, h, hb]
  · intro h
    exact ⟨by simp [Subscribe, h], by simp [Subscribe, h]⟩
  · by_cases h : m.subs a
    · simp [Subscribe, h]
    · simp [Subscribe, h]

/-- C7 (witness): first subscription returns `true`, the immediate repeat
returns `false`. -/
theorem C7_subscribe_witness :
    (Subscribe NewMemoryStorage "A").1 = true ∧
    (Subscribe (Subscribe NewMemoryStorage "A").2 "A").1 = false :=
  ⟨((C7_subscribe_once NewMemoryStorage "A").1 (by decide)).1,
   (C7_subscribe_once NewMemoryStorage "A").2.2⟩

/-- C8 (counterexample): constructing the parser with the zero-value
options (the enabled flag not explicitly set, which in Go is `false`)
yields `backwardScanEnabled = false`, not the claimed default `true`; the
depth default to 10000 does hold. -/
theorem C8_options_counterexample :
    (NewParserWithInterval ⟨false, 0⟩).backwardScanEnabled = false ∧
    (NewParserWithInterval ⟨false, 0⟩).backwardScanDepth = 10000 ∧
    false ≠ true := by
  decide

/-- C8 (amended): at construction a non-positive backward-scan depth is
coerced to 10000, but the enabled flag is copied through unchanged — the
`enabled := true; if !opts.BackwardScanEnabled { enabled = false }` dance is
the identity, so an unset (zero-value `false`) option disables the backward
scan; the default-true behavior lives in the bootstrap's environment
parsing, not in the constructor. The cursor starts at 0. -/
theorem C8_options_amended (opts : Options) :
    (NewParserWithInterval opts).backwardScanDepth =
      (if opts.BackwardScanDepth ≤ 0 then 10000 else opts.BackwardScanDepth) ∧
    (NewParserWithInterval opts).backwardScanEnabled = opts.BackwardScanEnabled ∧
    (NewParserWithInterval opts).block = 0 := by
  refine ⟨rfl, ?_, rfl⟩
  cases hb : opts.BackwardScanEnabled <;> simp [NewParserWithInterval, hb]

/-- C10: every store operation only grows the subscription set and only
appends at the end of each address's record list; `AddTransaction` touches
no other address's list and not the subscription set; and over any sequence
of operations, a subscribed address stays subscribed and a record list is
only ever extended. -/
theorem C10_store_invariants (m : MemoryStorage) (op : Op) :
    (∀ a, m.subs a = true → (applyOp m op).subs a = true) ∧
    (∀ a, ∃ l, (applyOp m op).txs a = m.txs a ++ l) ∧
    (∀ a tx, op = Op.addTransaction a tx →
      (applyOp m op).subs = m.subs ∧ ∀ b, b ≠ a → (applyOp m op).txs b = m.txs b) ∧
    (∀ ops : List Op, ∀ a, m.subs a = true → (ops.foldl applyOp m).subs a = true) ∧
    (∀ ops : List Op, ∀ a, ∃ l, (ops.foldl applyOp m).txs a = m.txs a ++ l) := by
  refine ⟨applyOp_subs_mono m op, applyOp_txs_grow m op, ?_, foldl_applyOp_subs_mono m,
    foldl_applyOp_txs_grow m⟩
  intro a tx hop
  subst hop
  refine ⟨rfl, ?_⟩
  intro b hb
  simp [applyOp, AddTransaction_txs, hb]

/-- C10 (witness): after subscribing `"A"` and adding a record for `"B"`,
`"A"` is still subscribed and `"B"`'s list grew by exactly that record. -/
theorem C10_store_witness :
    (applyOp (Subscribe NewMemoryStorage "A").2
      (Op.addTransaction "B" ⟨"h", "A", "B", "1", 1, true⟩)).subs "A" = true :=
  (C10_store_invariants (Subscribe NewMemoryStorage "A").2
    (Op.addTransaction "B" ⟨"h", "A", "B", "1", 1, true⟩)).1 "A" (by decide)

end TxParser

/-! ## Test vectors from the repository's own test suite (utils_test.go) -/

theorem testVectors_hexToInt :
    TxParser.hexToInt "0x1a" = 26 ∧ TxParser.hexToInt "1a" = 26 ∧
    TxParser.hexToInt "0x0" = 0 ∧ TxParser.hexToInt "0xffff" = 65535 ∧
    TxParser.hexToInt "" = 0 ∧ TxParser.hexToInt "0xgg" = 0 := by
  decide

theorem testVectors_hexToBigIntString :
    TxParser.hexToBigIntString "0x1a" = "26" ∧ TxParser.hexToBigIntString "1a" = "26" ∧
    TxParser.hexToBigIntString "0x0" = "0" ∧ TxParser.hexToBigIntString "" = "0" ∧
    TxParser.hexToBigIntString "0xffffffffffffffff" = "18446744073709551615" ∧
    TxParser.hexToBigIntString "0xgg" = "0" ∧
    TxParser.hexToBigIntString "0x0001a" = "26" := by
  decide

theorem testVectors_decodeHex :
    TxParser.decodeHex "0xff" = some 255 ∧ TxParser.decodeHex "0x" = none ∧
    TxParser.decodeHex "f" = some 15 ∧ TxParser.decodeHex "0xgg" = none := by
  decide
